import Mathlib

/-!
Verification of the helm-values-manager validation and generation engine.

The definitions below are a shallow embedding of the Python source:
  * `helm_values_manager/validator.py` (Validator, ValidationError),
  * `helm_values_manager/commands/generate_command.py` (GenerateCommand),
  * `helm_values_manager/utils.py` (validate_path_format),
  * `helm_values_manager/models.py` (SchemaValue, Schema).
Python's dynamically-typed JSON values are embedded as the inductive type
`JValue`; Python dictionaries become association lists that preserve
insertion order, which matches Python 3.7+ dict semantics.
-/

namespace HelmValues

/-- A JSON/Python value as handled by the validator and generator.
Python `bool` is a subclass of `int`, so the `isinstance` embeddings below
treat `bool` values as numeric as well. -/
inductive JValue where
  | str (s : String)
  | num (n : Int)
  | bool (b : Bool)
  | arr (items : List JValue)
  | obj (fields : List (String × JValue))
  | null

/-- Python `isinstance(value, str)`. -/
def isInstStr : JValue → Bool
  | .str _ => true
  | _ => false

/-- Python `isinstance(value, bool)`. -/
def isInstBool : JValue → Bool
  | .bool _ => true
  | _ => false

/-- Python `isinstance(value, (int, float))`; booleans are ints in Python. -/
def isInstNumeric : JValue → Bool
  | .num _ => true
  | .bool _ => true
  | _ => false

/-- Python `isinstance(value, list)`. -/
def isInstList : JValue → Bool
  | .arr _ => true
  | _ => false

/-- Python `isinstance(value, dict)`. -/
def isInstDict : JValue → Bool
  | .obj _ => true
  | _ => false

/-- `Validator._validate_value_type` (validator.py lines 198-210). -/
def validate_value_type (value : JValue) (expected_type : String) : Bool :=
  if expected_type = "string" then isInstStr value
  else if expected_type = "number" then isInstNumeric value && !(isInstBool value)
  else if expected_type = "boolean" then isInstBool value
  else if expected_type = "array" then isInstList value
  else if expected_type = "object" then isInstDict value
  else false

/-- Python `str(value)` as used by f-string interpolation in error messages.
Scalar cases are exact; containers render in Python repr style. -/
def pythonStr : JValue → String
  | .str s => s
  | .num n => toString n
  | .bool b => if b then "True" else "False"
  | .null => "None"
  | .arr _ => "[...]"
  | .obj _ => "\x7b...\x7d"

/-- `models.py` `SchemaValue` (pydantic model): one schema entry.
A JSON-null or absent `default` is Python `None`, embedded as `none`. -/
structure SchemaValue where
  key : String
  path : String
  description : String
  type : String
  required : Bool
  default : Option JValue
  sensitive : Bool

/-- `models.py` `Schema`: version tag plus the ordered entry list. -/
structure Schema where
  version : String
  values : List SchemaValue

/-- `validator.py` `ValidationError`: context label, message, optional environment. -/
structure ValidationError where
  context : String
  message : String
  env : Option String
deriving DecidableEq

/-- `ValidationError.__str__` (validator.py lines 35-38).  The Python source
renders `f"\\[{self.env}] ..."`, i.e. a literal backslash before the bracket
(escaping Rich markup), and `if self.env:` is falsy for both `None` and the
empty string. -/
def ValidationError.render (e : ValidationError) : String :=
  match e.env with
  | some env =>
      if env = "" then e.context ++ ": " ++ e.message
      else "\\[" ++ env ++ "] " ++ e.context ++ ": " ++ e.message
  | none => e.context ++ ": " ++ e.message

/-- Python `d[k]` / `k in d` lookup on an embedded dict. -/
def lookupField (fields : List (String × JValue)) (k : String) : Option JValue :=
  (fields.find? (fun f => f.1 == k)).map (fun f => f.2)

/-- `Validator._validate_secret_structure` (validator.py lines 212-228).
Returns the boolean result together with the errors the method appends to
`self.errors` itself (the unsupported-secret-type error, which is appended
with no environment argument). -/
def validateSecretStructure (value : JValue) : Bool × List ValidationError :=
  match value with
  | .obj fields =>
      match lookupField fields "type" with
      | none => (false, [])
      | some (.str s) =>
          if s = "env" then
            (match lookupField fields "name" with
             | some (.str _) => true
             | _ => false, [])
          else (false, [⟨"Values", "Unsupported secret type: " ++ s, none⟩])
      | some other => (false, [⟨"Values", "Unsupported secret type: " ++ pythonStr other, none⟩])
  | _ => (false, [])

/-- The per-key body of the value-scan loop in `Validator._validate_values_for_env`
(validator.py lines 159-179), for a key that is declared in the schema.  The
environment-variable existence check only prints a warning and is not part of
the error list. -/
def checkValue (entry : SchemaValue) (key : String) (value : JValue) (env : String) :
    List ValidationError :=
  if entry.sensitive then
    if !(validateSecretStructure value).1 then
      (validateSecretStructure value).2
        ++ [⟨"Values", "Invalid secret structure for " ++ key, some env⟩]
    else []
  else
    if !(validate_value_type value entry.type) then
      [⟨"Values", "Type mismatch for " ++ key ++ ": expected " ++ entry.type, some env⟩]
    else []

/-- `schema_map = {entry.key: entry for entry in schema.values}` — a Python dict
comprehension, where a later entry with the same key overwrites an earlier one. -/
def schemaDictLookup (values : List SchemaValue) (k : String) : Option SchemaValue :=
  values.foldl (fun acc e => if e.key = k then some e else acc) none

/-- Python `key in env_values` on the environment's raw mapping. -/
def envHasKey (envValues : List (String × JValue)) (k : String) : Bool :=
  envValues.any (fun kv => kv.1 == k)

/-- One iteration of the value-scan loop (validator.py lines 152-179): an
unknown key yields an unknown-key error, a declared key runs `checkValue`. -/
def scanKey (schemaValues : List SchemaValue) (env : String) (kv : String × JValue) :
    List ValidationError :=
  match schemaDictLookup schemaValues kv.1 with
  | none => [⟨"Values", "Unknown key: " ++ kv.1, some env⟩]
  | some entry => checkValue entry kv.1 kv.2 env

/-- The value-scan loop of `Validator._validate_values_for_env`
(validator.py lines 152-179): one pass over the environment's `(key, value)`
items. -/
def valueScanErrors (schemaValues : List SchemaValue) (envValues : List (String × JValue))
    (env : String) : List ValidationError :=
  envValues.flatMap (scanKey schemaValues env)

/-- The boolean guard of the missing-required loop (validator.py line 183):
`entry.required and entry.key not in env_values and entry.default is None`. -/
def missingCondition (envValues : List (String × JValue)) (entry : SchemaValue) : Bool :=
  entry.required && !(envHasKey envValues entry.key) && entry.default.isNone

/-- The missing-required error for a key, as appended at validator.py line 184. -/
def missingRequiredError (k env : String) : ValidationError :=
  ⟨"Values", "Missing required value: " ++ k, some env⟩

/-- The missing-required loop of `Validator._validate_values_for_env`
(validator.py lines 181-186). -/
def missingRequiredErrors (schemaValues : List SchemaValue)
    (envValues : List (String × JValue)) (env : String) : List ValidationError :=
  schemaValues.filterMap (fun entry =>
    if missingCondition envValues entry then some (missingRequiredError entry.key env)
    else none)

/-- `Validator._validate_values_for_env` on already-loaded data: the value-scan
loop followed by the missing-required loop, appending to `self.errors` in that
order. -/
def validateValuesForEnv (schemaValues : List SchemaValue)
    (envValues : List (String × JValue)) (env : String) : List ValidationError :=
  valueScanErrors schemaValues envValues env
    ++ missingRequiredErrors schemaValues envValues env

/-- Number of occurrences of an error in a list. -/
def countOcc (l : List ValidationError) (e : ValidationError) : Nat :=
  (l.filter (fun x => decide (x = e))).length

/-- First character of a string, if any; used to tell message shapes apart. -/
def headCh (s : String) : Option Char :=
  s.data.head?

/-! Schema-level validation (`Validator._validate_schema`, validator.py lines 65-116). -/

/-- The path-character check at validator.py line 103:
`all(c.isalnum() or c in '.-_' for c in entry.path)`.  It constrains only the
characters of the path and is vacuously true on the empty string. -/
def pathCharsOk (path : String) : Bool :=
  path.data.all (fun c => c.isAlphanum || c = '.' || c = '-' || c = '_')

/-- The list of valid type names at validator.py line 107. -/
def validTypes : List String :=
  ["string", "number", "boolean", "array", "object"]

/-- The per-entry checks of `_validate_schema` (validator.py lines 91-116),
given the sets of keys and paths already seen. -/
def schemaEntryErrors (entry : SchemaValue) (seenKeys seenPaths : List String) :
    List ValidationError :=
  (if entry.key ∈ seenKeys then
    [⟨"Schema", "Duplicate key: " ++ entry.key, none⟩] else [])
  ++ (if entry.path ∈ seenPaths then
    [⟨"Schema", "Duplicate path: " ++ entry.path, none⟩] else [])
  ++ (if !(pathCharsOk entry.path) then
    [⟨"Schema", "Invalid path format: " ++ entry.path, none⟩] else [])
  ++ (if !(validTypes.contains entry.type) then
    [⟨"Schema", "Invalid type for " ++ entry.key ++ ": " ++ entry.type, none⟩] else [])
  ++ (match entry.default with
      | some d =>
          if !(validate_value_type d entry.type) then
            [⟨"Schema", "Default value type mismatch for " ++ entry.key, none⟩]
          else []
      | none => [])

/-- The entry loop of `_validate_schema`, threading the seen-key and seen-path
sets in declaration order. -/
def schemaEntriesErrors : List SchemaValue → List String → List String → List ValidationError
  | [], _, _ => []
  | e :: rest, seenKeys, seenPaths =>
      schemaEntryErrors e seenKeys seenPaths
        ++ schemaEntriesErrors rest (e.key :: seenKeys) (e.path :: seenPaths)

/-! Loading and parsing of the persisted documents.  File reading and JSON
decoding are external effects; they are embedded as a `FileContent` input. -/

/-- The state of a file as the validator observes it: absent, present but not
JSON-decodable, or decoded to a JSON value. -/
inductive FileContent where
  | missing
  | invalidJson (errMsg : String)
  | parsed (doc : JValue)

/-- Construction of a pydantic `SchemaValue` from a decoded JSON object
(`Schema(**data)` at validator.py line 75): `key`, `path`, `description` and
`type` are required strings, `type` restricted to the five kinds, `required`
defaults to true, `sensitive` to false, `default` to `None` (JSON null is
Python `None`). -/
def parseSchemaValue (v : JValue) : Option SchemaValue :=
  match v with
  | .obj fields =>
      match lookupField fields "key", lookupField fields "path",
          lookupField fields "description", lookupField fields "type" with
      | some (.str key), some (.str path), some (.str descr), some (.str ty) =>
          if validTypes.contains ty then
            let req := match lookupField fields "required" with
              | some (.bool b) => some b
              | none => some true
              | _ => none
            let sens := match lookupField fields "sensitive" with
              | some (.bool b) => some b
              | none => some false
              | _ => none
            let dflt := match lookupField fields "default" with
              | some .null => none
              | some d => some d
              | none => none
            match req, sens with
            | some r, some s => some ⟨key, path, descr, ty, r, dflt, s⟩
            | _, _ => none
          else none
      | _, _, _, _ => none
  | _ => none

/-- Collects `parseSchemaValue` over a list, failing if any entry fails. -/
def parseSchemaValues : List JValue → Option (List SchemaValue)
  | [] => some []
  | v :: rest =>
      match parseSchemaValue v, parseSchemaValues rest with
      | some sv, some svs => some (sv :: svs)
      | _, _ => none

/-- Construction of a pydantic `Schema` from a decoded JSON document:
`version` defaults to "1.0", `values` to the empty list. -/
def parseSchema (doc : JValue) : Option Schema :=
  match doc with
  | .obj fields =>
      let version := match lookupField fields "version" with
        | some (.str s) => some s
        | none => some "1.0"
        | _ => none
      let values := match lookupField fields "values" with
        | some (.arr items) => parseSchemaValues items
        | none => some []
        | _ => none
      match version, values with
      | some ver, some vals => some ⟨ver, vals⟩
      | _, _ => none
  | _ => none

/-- `Validator._validate_schema` (validator.py lines 65-116) over the observed
schema file: file-level failures yield a single error; otherwise the version
check and the per-entry loop run. -/
def validateSchemaErrors (schemaFile : FileContent) (schemaPath : String) :
    List ValidationError :=
  match schemaFile with
  | .missing => [⟨"Schema", "File not found: " ++ schemaPath, none⟩]
  | .invalidJson msg => [⟨"Schema", "Invalid JSON: " ++ msg, none⟩]
  | .parsed doc =>
      match parseSchema doc with
      | none => [⟨"Schema", "Invalid schema: validation error", none⟩]
      | some schema =>
          (if schema.version ≠ "1.0" then
            [⟨"Schema", "Unsupported version: " ++ schema.version, none⟩] else [])
          ++ schemaEntriesErrors schema.values [] []

/-- `values.get(env, {})` at validator.py line 133: the per-environment values
document is keyed by the environment name at top level. -/
def envValuesOf (doc : JValue) (env : String) : List (String × JValue) :=
  match doc with
  | .obj fields =>
      match lookupField fields env with
      | some (.obj kvs) => kvs
      | _ => []
  | _ => []

/-- `Validator._validate_values_for_env` (validator.py lines 118-186) over the
observed files: a missing values file yields no errors, an undecodable one a
single error; otherwise the schema is re-loaded (errors there were already
reported, so they yield nothing here) and the two loops run. -/
def validateValuesForEnvFile (schemaFile valuesFile : FileContent) (env : String) :
    List ValidationError :=
  match valuesFile with
  | .missing => []
  | .invalidJson msg =>
      [⟨"Values", "Invalid JSON in values-" ++ env ++ ".json: " ++ msg, some env⟩]
  | .parsed doc =>
      match schemaFile with
      | .parsed sdoc =>
          match parseSchema sdoc with
          | some schema => validateValuesForEnv schema.values (envValuesOf doc env) env
          | none => []
      | _ => []

/-- `Validator._validate_all_values` (validator.py lines 188-196): the
environments discovered by the `values-*.json` glob, as (environment, file)
pairs in discovery order. -/
def validateAllValuesErrors (schemaFile : FileContent)
    (valuesFiles : List (String × FileContent)) : List ValidationError :=
  valuesFiles.flatMap (fun f => validateValuesForEnvFile schemaFile f.2 f.1)

/-- The mutable state of a `Validator` instance: its accumulated error list. -/
structure ValidatorState where
  errors : List ValidationError

/-- Look up the values file for a named environment among the observed files
(`values-{env}.json` at validator.py line 120). -/
def fileForEnv (valuesFiles : List (String × FileContent)) (env : String) : FileContent :=
  match valuesFiles.find? (fun f => f.1 == env) with
  | some f => f.2
  | none => .missing

/-- `Validator.validate_all` (validator.py lines 49-63).  The method first
resets `self.errors = []`, then runs the schema checks and the per-environment
checks, and returns `len(self.errors) == 0` together with the new state. -/
def validateAll (state : ValidatorState) (schemaFile : FileContent) (schemaPath : String)
    (valuesFiles : List (String × FileContent)) (envOpt : Option String) :
    Bool × ValidatorState :=
  let errs0 : List ValidationError := []
  let errs1 := errs0 ++ validateSchemaErrors schemaFile schemaPath
  let errs2 := errs1 ++ (match envOpt with
    | some env => validateValuesForEnvFile schemaFile (fileForEnv valuesFiles env) env
    | none => validateAllValuesErrors schemaFile valuesFiles)
  (errs2.isEmpty, ⟨errs2⟩)

/-! The CLI-level path validator (`utils.py` lines 31-37) and the Python string
primitives it relies on, embedded on character lists so that they compute. -/

/-- Python `s.split(".")`: split on every dot, keeping empty parts;
`"".split(".") == [""]`. -/
def splitDotChars : List Char → List (List Char)
  | [] => [[]]
  | c :: cs =>
      let rest := splitDotChars cs
      if c = '.' then [] :: rest
      else
        match rest with
        | [] => [[c]]
        | r :: rs => (c :: r) :: rs

/-- Python `path.split(".")` on strings. -/
def pySplitDot (s : String) : List String :=
  (splitDotChars s.data).map (fun cs => String.mk cs)

/-- Python `part.replace("-", "").replace("_", "")`: removes every dash and
underscore. -/
def removeDashUnderscore (cs : List Char) : List Char :=
  cs.filter (fun c => !(c = '-') && !(c = '_'))

/-- Python `s.isalnum()`: true iff the string is nonempty and every character
is alphanumeric (the empty string is not alnum). -/
def pyIsAlnum (cs : List Char) : Bool :=
  !cs.isEmpty && cs.all Char.isAlphanum

/-- `utils.validate_path_format` (utils.py lines 31-37): an empty path is
rejected; otherwise each nonempty dot-separated part must be alphanumeric
after removing dashes and underscores. -/
def validate_path_format (path : String) : Bool :=
  if path.data.isEmpty then false
  else (splitDotChars path.data).all (fun part =>
    if part.isEmpty then true
    else pyIsAlnum (removeDashUnderscore part))

/-! The generator (`GenerateCommand._generate_values_dict`,
generate_command.py lines 66-122).  The nested output dictionary is embedded
as `YTree`; Python dict assignment updates an existing key in place and
appends a new key at the end. -/

/-- A node of the nested values dictionary: a leaf value or a sub-dictionary. -/
inductive YTree where
  | leaf (s : String)
  | node (children : List (String × YTree))

/-- Python `d[k]` lookup on an embedded dict of subtrees. -/
def assocGet : List (String × YTree) → String → Option YTree
  | [], _ => none
  | (k', v') :: rest, k => if k' = k then some v' else assocGet rest k

/-- Python `d[k] = v`: update in place if present, else append. -/
def assocSet : List (String × YTree) → String → YTree → List (String × YTree)
  | [], k, v => [(k, v)]
  | (k', v') :: rest, k, v =>
      if k' = k then (k, v) :: rest else (k', v') :: assocSet rest k v

/-- The path-descent loop of `_generate_values_dict` (generate_command.py
lines 102-115): walk the dot-segments, creating nested dicts, and set the leaf.
Descending into (or past) an existing leaf raises a `TypeError` in Python,
embedded as `none`. -/
def insertTree : List String → List (String × YTree) → String → Option (List (String × YTree))
  | [], _, _ => none
  | [part], t, v => some (assocSet t part (.leaf v))
  | part :: rest, t, v =>
      match assocGet t part with
      | some (.node kids) => (insertTree rest kids v).map (fun kids' => assocSet t part (.node kids'))
      | some (.leaf _) => none
      | none => (insertTree rest [] v).map (fun kids' => assocSet t part (.node kids'))

/-- Python `", ".join(paths)`. -/
def joinComma : List String → String
  | [] => ""
  | [x] => x
  | x :: rest => x ++ ", " ++ joinComma rest

/-- The main loop of `_generate_values_dict` (generate_command.py lines 84-115)
over the configured paths in `_path_map` order.  Each element carries the
path and its metadata's `required` flag; `getVal` is
`config.get_value(path, deployment, resolve=True)`, whose hard resolution
failure is the `Except.error` case.  The loop threads the output dict and the
`missing_required_paths` accumulator. -/
def genLoop (getVal : String → Except String (Option String)) :
    List (String × Bool) → List (String × YTree) → List String →
    Except String (List (String × YTree) × List String)
  | [], acc, missing => .ok (acc, missing)
  | (p, req) :: rest, acc, missing =>
      match getVal p with
      | .error e => .error e
      | .ok none =>
          if req then genLoop getVal rest acc (missing ++ [p])
          else genLoop getVal rest acc missing
      | .ok (some v) =>
          match insertTree (pySplitDot p) acc v with
          | none => .error "TypeError"
          | some acc' => genLoop getVal rest acc' missing

/-- `GenerateCommand._generate_values_dict` (generate_command.py lines 66-122):
run the loop over every configured path, then — only after the full scan —
raise a single error enumerating every missing required path, else return the
assembled tree. -/
def generateValuesDict (paths : List (String × Bool))
    (getVal : String → Except String (Option String)) (deployment : String) :
    Except String (List (String × YTree)) :=
  match genLoop getVal paths [] [] with
  | .error e => .error e
  | .ok (acc, missing) =>
      if missing.isEmpty then .ok acc
      else .error ("Missing required values for deployment \x27" ++ deployment
        ++ "\x27: " ++ joinComma missing)

/-- Whether a lookup returned successfully with no value — the
`value is None` test at generate_command.py lines 94 and 99. -/
def isOkNone : Except String (Option String) → Bool
  | .ok none => true
  | _ => false

/-- Address lookup in the assembled tree, by a nonempty segment list. -/
def lookupAddr : List (String × YTree) → List String → Option YTree
  | _, [] => none
  | t, [k] => assocGet t k
  | t, k :: rest =>
      match assocGet t k with
      | some (.node kids) => lookupAddr kids rest
      | _ => none

/-- One segment list is an initial segment of another. -/
def initSegB : List String → List String → Bool
  | [], _ => true
  | _ :: _, [] => false
  | x :: xs, y :: ys => x == y && initSegB xs ys

/-- Modelled from the spec: the secret-reference resolver used at generation
time.  The resolving code itself (`helm_values_manager/generator.py`, called
from `commands/generate.py`, and the `resolve=True` branch behind
`HelmValuesConfig.get_value`/`Value.get`) is not present under `src/`; only
its callers and tests are.  Per spec §4.3: a secret reference is a mapping
with `type: "env"` and a string `name`; resolution looks the name up in the
process environment, and absence of the variable at resolution time is a hard
failure (`EnvironmentLookupError`), not a warning. -/
def resolveSecretRef (procEnv : String → Option String) (v : JValue) :
    Except String String :=
  match v with
  | .obj fields =>
      match lookupField fields "type" with
      | some (.str "env") =>
          match lookupField fields "name" with
          | some (.str name) =>
              match procEnv name with
              | some value => .ok value
              | none => .error ("EnvironmentLookupError: " ++ name)
          | _ => .error "invalid secret reference structure"
      | some _ => .error "unsupported secret type"
      | none => .error "invalid secret reference structure"
  | _ => .error "invalid secret reference structure"

/-! String helper lemmas used to tell the validator's message shapes apart. -/

theorem string_data_inj (a b : String) (h : a.data = b.data) : a = b := by
  cases a; cases b; exact congrArg String.mk h

theorem str_append_left_cancel (p a b : String) (h : p ++ a = p ++ b) : a = b := by
  have h2 := congrArg String.data h
  rw [String.data_append, String.data_append] at h2
  exact string_data_inj a b (List.append_cancel_left h2)

theorem headCh_append (p s : String) (c : Char) (h : p.data.head? = some c) :
    headCh (p ++ s) = some c := by
  unfold headCh
  rw [String.data_append]
  cases hd : p.data with
  | nil => rw [hd] at h; simp at h
  | cons a as => rw [hd] at h; simp at h; simp [h]

theorem str_append_ne_of_head_ne (p q a b : String) (cp cq : Char)
    (hp : p.data.head? = some cp) (hq : q.data.head? = some cq) (hne : cp ≠ cq) :
    p ++ a ≠ q ++ b := by
  intro h
  have h1 := headCh_append p a cp hp
  have h2 := headCh_append q b cq hq
  rw [h] at h1
  rw [h1] at h2
  exact hne (Option.some.inj h2)

theorem headCh_ne (p a : String) (cp c : Char) (hp : p.data.head? = some cp)
    (hne : cp ≠ c) : headCh (p ++ a) ≠ some c := by
  rw [headCh_append p a cp hp]
  intro h
  exact hne (Option.some.inj h)

/-- A key found in the schema map comes from an entry of the schema list. -/
theorem schemaDictLookup_mem (svs : List SchemaValue) (k : String) (entry : SchemaValue)
    (h : schemaDictLookup svs k = some entry) : entry ∈ svs := by
  have aux : ∀ (l : List SchemaValue) (acc : Option SchemaValue),
      l.foldl (fun acc e => if e.key = k then some e else acc) acc = some entry →
      entry ∈ l ∨ acc = some entry := by
    intro l
    induction l with
    | nil => intro acc h2; exact Or.inr h2
    | cons x rest ih =>
        intro acc h2
        rcases ih _ h2 with h3 | h3
        · exact Or.inl (List.mem_cons_of_mem x h3)
        · have h3' : (if x.key = k then some x else acc) = some entry := h3
          by_cases hx : x.key = k
          · rw [if_pos hx] at h3'
            exact Or.inl (List.mem_cons.mpr (Or.inl (Option.some.inj h3').symm))
          · rw [if_neg hx] at h3'
            exact Or.inr h3'
  rcases aux svs none h with h2 | h2
  · exact h2
  · exact absurd h2 (by simp)

theorem countOcc_append (l₁ l₂ : List ValidationError) (e : ValidationError) :
    countOcc (l₁ ++ l₂) e = countOcc l₁ e + countOcc l₂ e := by
  simp [countOcc, List.filter_append]

theorem countOcc_eq_zero (l : List ValidationError) (e : ValidationError)
    (h : ∀ x ∈ l, x ≠ e) : countOcc l e = 0 := by
  unfold countOcc
  rw [List.length_eq_zero]
  exact List.filter_eq_nil_iff.mpr (by intro x hx; simpa using h x hx)

/-- The errors that `_validate_secret_structure` itself appends are exactly
unsupported-secret-type errors, carrying no environment. -/
theorem validateSecretStructure_errors (v : JValue) (e : ValidationError)
    (he : e ∈ (validateSecretStructure v).2) :
    ∃ s, e = ⟨"Values", "Unsupported secret type: " ++ s, none⟩ := by
  cases v with
  | obj fields =>
      rcases htype : lookupField fields "type" with _ | t
      · simp [validateSecretStructure, htype] at he
      · cases t with
        | str s =>
            by_cases hs : s = "env"
            · simp [validateSecretStructure, htype, hs] at he
            · simp [validateSecretStructure, htype, hs] at he
              exact ⟨s, he⟩
        | num n =>
            simp [validateSecretStructure, htype] at he
            exact ⟨pythonStr (.num n), he⟩
        | bool b =>
            simp [validateSecretStructure, htype] at he
            exact ⟨pythonStr (.bool b), he⟩
        | arr xs =>
            simp [validateSecretStructure, htype] at he
            exact ⟨pythonStr (.arr xs), he⟩
        | obj fs =>
            simp [validateSecretStructure, htype] at he
            exact ⟨pythonStr (.obj fs), he⟩
        | null =>
            simp [validateSecretStructure, htype] at he
            exact ⟨pythonStr .null, he⟩
  | str s => simp [validateSecretStructure] at he
  | num n => simp [validateSecretStructure] at he
  | bool b => simp [validateSecretStructure] at he
  | arr xs => simp [validateSecretStructure] at he
  | null => simp [validateSecretStructure] at he

/-- For a sensitive entry, the scan body emits only unsupported-secret-type
and invalid-secret-structure errors. -/
theorem checkValue_sensitive_errors (entry : SchemaValue) (k : String) (v : JValue)
    (env : String) (e : ValidationError) (hs : entry.sensitive = true)
    (he : e ∈ checkValue entry k v env) :
    (∃ s, e = ⟨"Values", "Unsupported secret type: " ++ s, none⟩)
      ∨ e = ⟨"Values", "Invalid secret structure for " ++ k, some env⟩ := by
  unfold checkValue at he
  rw [if_pos hs] at he
  cases hr : (validateSecretStructure v).1 with
  | true => rw [hr] at he; simp at he
  | false =>
      rw [hr] at he
      simp only [Bool.not_false, if_true] at he
      rcases List.mem_append.mp he with h2 | h2
      · exact Or.inl (validateSecretStructure_errors v e h2)
      · simp at h2
        exact Or.inr h2

/-- For a non-sensitive entry, the scan body emits only the type-mismatch
error, and only when the value-type check fails. -/
theorem checkValue_nonsensitive_errors (entry : SchemaValue) (k : String) (v : JValue)
    (env : String) (e : ValidationError) (hs : entry.sensitive = false)
    (he : e ∈ checkValue entry k v env) :
    e = ⟨"Values", "Type mismatch for " ++ k ++ ": expected " ++ entry.type, some env⟩
      ∧ validate_value_type v entry.type = false := by
  unfold checkValue at he
  rw [hs] at he
  simp only [Bool.false_eq_true, if_false] at he
  cases ht : validate_value_type v entry.type with
  | true => rw [ht] at he; simp at he
  | false =>
      rw [ht] at he
      simp at he
      exact ⟨he, rfl⟩

/-- For a sensitive entry whose value fails the structure check, the scan body
does emit the invalid-secret-structure error. -/
theorem checkValue_sensitive_invalid_mem (entry : SchemaValue) (k : String) (v : JValue)
    (env : String) (hs : entry.sensitive = true)
    (hbad : (validateSecretStructure v).1 = false) :
    (⟨"Values", "Invalid secret structure for " ++ k, some env⟩ : ValidationError)
      ∈ checkValue entry k v env := by
  unfold checkValue
  rw [if_pos hs, hbad]
  simp

/-- Every error emitted by the per-key scan body starts with `U`, `I` or `T`. -/
theorem checkValue_headCh (entry : SchemaValue) (k : String) (v : JValue) (env : String)
    (e : ValidationError) (he : e ∈ checkValue entry k v env) :
    headCh e.message = some 'U' ∨ headCh e.message = some 'I' ∨ headCh e.message = some 'T' := by
  by_cases hs : entry.sensitive = true
  · rcases checkValue_sensitive_errors entry k v env e hs he with ⟨s, rfl⟩ | rfl
    · exact Or.inl (headCh_append _ _ 'U' rfl)
    · exact Or.inr (Or.inl (headCh_append _ _ 'I' rfl))
  · obtain ⟨rfl, -⟩ := checkValue_nonsensitive_errors entry k v env e
      (Bool.not_eq_true _ ▸ hs) he
    exact Or.inr (Or.inr (headCh_append _ _ 'T' rfl))

/-- Every error emitted by the value-scan loop starts with `U`, `I` or `T`. -/
theorem valueScanErrors_headCh (svs : List SchemaValue) (evs : List (String × JValue))
    (env : String) (e : ValidationError) (he : e ∈ valueScanErrors svs evs env) :
    headCh e.message = some 'U' ∨ headCh e.message = some 'I' ∨ headCh e.message = some 'T' := by
  obtain ⟨kv, _, hin⟩ := List.mem_flatMap.mp he
  unfold scanKey at hin
  rcases hl : schemaDictLookup svs kv.1 with _ | entry
  · rw [hl] at hin
    simp at hin
    rw [hin]
    exact Or.inl (headCh_append _ _ 'U' rfl)
  · rw [hl] at hin
    exact checkValue_headCh entry kv.1 kv.2 env e hin

theorem missingRequiredError_headCh (k env : String) :
    headCh (missingRequiredError k env).message = some 'M' :=
  headCh_append _ _ 'M' rfl

theorem valueScanErrors_ne_missing (svs : List SchemaValue) (evs : List (String × JValue))
    (env env' k : String) (e : ValidationError) (he : e ∈ valueScanErrors svs evs env') :
    e ≠ missingRequiredError k env := by
  intro h
  have h1 := valueScanErrors_headCh svs evs env' e he
  rw [h] at h1
  rw [missingRequiredError_headCh] at h1
  rcases h1 with h1 | h1 | h1 <;> exact absurd (Option.some.inj h1) (by decide)

theorem missingRequiredError_inj (a b env : String)
    (h : missingRequiredError a env = missingRequiredError b env) : a = b := by
  have := congrArg ValidationError.message h
  exact str_append_left_cancel _ _ _ this

theorem missingRequiredErrors_cons (e₀ : SchemaValue) (rest : List SchemaValue)
    (evs : List (String × JValue)) (env : String) :
    missingRequiredErrors (e₀ :: rest) evs env =
      (if missingCondition evs e₀ then [missingRequiredError e₀.key env] else [])
        ++ missingRequiredErrors rest evs env := by
  unfold missingRequiredErrors
  rw [List.filterMap_cons]
  by_cases hc : missingCondition evs e₀ = true
  · rw [if_pos hc, if_pos hc]
    rfl
  · rw [if_neg hc, if_neg hc]
    rfl

theorem countOcc_singleton_self (e : ValidationError) : countOcc [e] e = 1 := by
  simp [countOcc]

theorem missingRequiredErrors_count_zero (svs : List SchemaValue)
    (evs : List (String × JValue)) (env k : String)
    (h : ∀ e' ∈ svs, e'.key ≠ k) :
    countOcc (missingRequiredErrors svs evs env) (missingRequiredError k env) = 0 := by
  apply countOcc_eq_zero
  intro x hx
  obtain ⟨entry, hmem, hsome⟩ := List.mem_filterMap.mp hx
  by_cases hc : missingCondition evs entry = true
  · rw [if_pos hc] at hsome
    intro hcontra
    rw [← Option.some.inj hsome] at hcontra
    exact h entry hmem (missingRequiredError_inj entry.key k env hcontra)
  · rw [if_neg hc] at hsome
    exact absurd hsome (by simp)

theorem missingRequiredErrors_count (svs : List SchemaValue)
    (evs : List (String × JValue)) (env : String) (entry : SchemaValue)
    (hmem : entry ∈ svs) (hdist : svs.Pairwise (fun a b => a.key ≠ b.key)) :
    countOcc (missingRequiredErrors svs evs env) (missingRequiredError entry.key env)
      = if missingCondition evs entry then 1 else 0 := by
  induction svs with
  | nil => simp at hmem
  | cons e₀ rest ih =>
      have hpair := List.pairwise_cons.mp hdist
      rw [missingRequiredErrors_cons, countOcc_append]
      rcases List.mem_cons.mp hmem with heq | hrest
      · subst heq
        have hzero := missingRequiredErrors_count_zero rest evs env entry.key
          (fun e' he' => Ne.symm (hpair.1 e' he'))
        rw [hzero]
        by_cases hc : missingCondition evs entry = true
        · rw [if_pos hc, if_pos hc, countOcc_singleton_self]
        · rw [if_neg hc, if_neg hc]
          simp [countOcc]
      · have hne : e₀.key ≠ entry.key := hpair.1 entry hrest
        have htail := ih hrest hpair.2
        rw [htail]
        have hhead : countOcc (if missingCondition evs e₀
            then [missingRequiredError e₀.key env] else [])
            (missingRequiredError entry.key env) = 0 := by
          apply countOcc_eq_zero
          intro x hx
          by_cases hc : missingCondition evs e₀ = true
          · rw [if_pos hc] at hx
            simp at hx
            subst hx
            intro hcontra
            exact hne (missingRequiredError_inj e₀.key entry.key env hcontra)
          · rw [if_neg hc] at hx
            simp at hx
        rw [hhead]
        exact Nat.zero_add _

/-! Lemmas about the generator's tree assembly. -/

theorem lookupAddr_nil_tree (q : List String) : lookupAddr [] q = none := by
  cases q with
  | nil => rfl
  | cons k rest =>
      cases rest with
      | nil => rfl
      | cons r rs => rfl

theorem assocGet_set_self (t : List (String × YTree)) (k : String) (v : YTree) :
    assocGet (assocSet t k v) k = some v := by
  induction t with
  | nil => simp [assocSet, assocGet]
  | cons kv rest ih =>
      obtain ⟨k', v'⟩ := kv
      by_cases h : k' = k
      · simp [assocSet, assocGet, h]
      · simp only [assocSet, if_neg h]
        simp only [assocGet, if_neg h]
        exact ih

theorem assocGet_set_ne (t : List (String × YTree)) (k k' : String) (v : YTree)
    (h : k' ≠ k) : assocGet (assocSet t k v) k' = assocGet t k' := by
  induction t with
  | nil =>
      simp only [assocSet, assocGet]
      rw [if_neg (fun hk => h hk.symm)]
  | cons kv rest ih =>
      obtain ⟨k0, v0⟩ := kv
      by_cases h0 : k0 = k
      · simp only [assocSet, if_pos h0]
        simp only [assocGet]
        rw [if_neg (fun hk => h hk.symm), if_neg (fun hk => h (h0 ▸ hk.symm))]
      · simp only [assocSet, if_neg h0]
        simp only [assocGet]
        by_cases h1 : k0 = k'
        · rw [if_pos h1, if_pos h1]
        · rw [if_neg h1, if_neg h1]
          exact ih

theorem lookupAddr_single (t : List (String × YTree)) (k : String) :
    lookupAddr t [k] = assocGet t k := rfl

theorem lookupAddr_cons_cons (t : List (String × YTree)) (k q1 : String)
    (qs : List String) :
    lookupAddr t (k :: q1 :: qs) =
      (match assocGet t k with
       | some (.node kids) => lookupAddr kids (q1 :: qs)
       | _ => none) := rfl

theorem insertTree_lookup_self (parts : List String) :
    ∀ (t : List (String × YTree)) (v : String) (t' : List (String × YTree)),
    insertTree parts t v = some t' →
    lookupAddr t' parts = some (.leaf v) := by
  induction parts with
  | nil =>
      intro t v t' hins
      simp [insertTree] at hins
  | cons part rest ih =>
      intro t v t' hins
      cases rest with
      | nil =>
          simp only [insertTree] at hins
          rw [← Option.some.inj hins]
          simp only [lookupAddr]
          exact assocGet_set_self t part (.leaf v)
      | cons r rs =>
          simp only [insertTree] at hins
          rcases hget : assocGet t part with _ | yt
          · rw [hget] at hins
            have hins2 : Option.map (fun kids' => assocSet t part (YTree.node kids'))
                (insertTree (r :: rs) [] v) = some t' := hins
            rcases hrec : insertTree (r :: rs) [] v with _ | kids'
            · rw [hrec] at hins2
              simp at hins2
            · rw [hrec] at hins2
              simp at hins2
              rw [← hins2]
              have hL : lookupAddr (assocSet t part (YTree.node kids'))
                  (part :: r :: rs) = lookupAddr kids' (r :: rs) := by
                rw [lookupAddr_cons_cons, assocGet_set_self]
              rw [hL]
              exact ih [] v kids' hrec
          · cases yt with
            | leaf s =>
                rw [hget] at hins
                exact absurd hins (by simp)
            | node kids =>
                rw [hget] at hins
                have hins2 : Option.map (fun kids' => assocSet t part (YTree.node kids'))
                    (insertTree (r :: rs) kids v) = some t' := hins
                rcases hrec : insertTree (r :: rs) kids v with _ | kids'
                · rw [hrec] at hins2
                  simp at hins2
                · rw [hrec] at hins2
                  simp at hins2
                  rw [← hins2]
                  have hL : lookupAddr (assocSet t part (YTree.node kids'))
                      (part :: r :: rs) = lookupAddr kids' (r :: rs) := by
                    rw [lookupAddr_cons_cons, assocGet_set_self]
                  rw [hL]
                  exact ih kids v kids' hrec

theorem insertTree_lookup_incomp (parts : List String) :
    ∀ (t : List (String × YTree)) (v : String) (t' : List (String × YTree))
    (q : List String),
    insertTree parts t v = some t' →
    initSegB parts q = false → initSegB q parts = false →
    lookupAddr t' q = lookupAddr t q := by
  induction parts with
  | nil =>
      intro t v t' q hins _ _
      simp [insertTree] at hins
  | cons part rest ih =>
      intro t v t' q hins hpq hqp
      cases rest with
      | nil =>
          simp only [insertTree] at hins
          rw [← Option.some.inj hins]
          cases q with
          | nil => rfl
          | cons k qs =>
              have hk : part ≠ k := by
                intro hk0
                cases qs with
                | nil =>
                    rw [hk0] at hqp
                    simp [initSegB] at hqp
                | cons q1 qrest =>
                    rw [hk0] at hpq
                    simp [initSegB] at hpq
              cases qs with
              | nil =>
                  rw [lookupAddr_single, lookupAddr_single]
                  exact assocGet_set_ne t part k (.leaf v) (fun h => hk h.symm)
              | cons q1 qrest =>
                  rw [lookupAddr_cons_cons, lookupAddr_cons_cons,
                    assocGet_set_ne t part k (.leaf v) (fun h => hk h.symm)]
      | cons r rs =>
          simp only [insertTree] at hins
          have main : ∀ (kids kids' : List (String × YTree)),
              insertTree (r :: rs) kids v = some kids' →
              (assocGet t part = some (.node kids)
                ∨ (kids = [] ∧ assocGet t part = none)) →
              t' = assocSet t part (.node kids') →
              lookupAddr t' q = lookupAddr t q := by
            intro kids kids' hrec hget2 ht'
            subst ht'
            cases q with
            | nil => rfl
            | cons k qs =>
                by_cases hk : part = k
                · subst hk
                  cases qs with
                  | nil =>
                      exfalso
                      simp [initSegB] at hqp
                  | cons q1 qrest =>
                      have hpq' : initSegB (r :: rs) (q1 :: qrest) = false := by
                        simpa [initSegB] using hpq
                      have hqp' : initSegB (q1 :: qrest) (r :: rs) = false := by
                        simpa [initSegB] using hqp
                      have hL : lookupAddr (assocSet t part (.node kids'))
                          (part :: q1 :: qrest) = lookupAddr kids' (q1 :: qrest) := by
                        rw [lookupAddr_cons_cons, assocGet_set_self]
                      rcases hget2 with hget2 | ⟨hkids, hget2⟩
                      · have hR : lookupAddr t (part :: q1 :: qrest)
                            = lookupAddr kids (q1 :: qrest) := by
                          rw [lookupAddr_cons_cons, hget2]
                        rw [hL, hR]
                        exact ih kids v kids' (q1 :: qrest) hrec hpq' hqp'
                      · subst hkids
                        have hR : lookupAddr t (part :: q1 :: qrest) = none := by
                          rw [lookupAddr_cons_cons, hget2]
                        rw [hL, hR, ih [] v kids' (q1 :: qrest) hrec hpq' hqp']
                        exact lookupAddr_nil_tree (q1 :: qrest)
                · cases qs with
                  | nil =>
                      rw [lookupAddr_single, lookupAddr_single]
                      exact assocGet_set_ne t part k (.node kids') (fun h => hk h.symm)
                  | cons q1 qrest =>
                      rw [lookupAddr_cons_cons, lookupAddr_cons_cons,
                        assocGet_set_ne t part k (.node kids') (fun h => hk h.symm)]
          rcases hget : assocGet t part with _ | yt
          · rw [hget] at hins
            have hins2 : Option.map (fun kids' => assocSet t part (YTree.node kids'))
                (insertTree (r :: rs) [] v) = some t' := hins
            rcases hrec : insertTree (r :: rs) [] v with _ | kids'
            · rw [hrec] at hins2
              simp at hins2
            · rw [hrec] at hins2
              simp at hins2
              exact main [] kids' hrec (Or.inr ⟨rfl, hget⟩) hins2.symm
          · cases yt with
            | leaf s =>
                rw [hget] at hins
                exact absurd hins (by simp)
            | node kids =>
                rw [hget] at hins
                have hins2 : Option.map (fun kids' => assocSet t part (YTree.node kids'))
                    (insertTree (r :: rs) kids v) = some t' := hins
                rcases hrec : insertTree (r :: rs) kids v with _ | kids'
                · rw [hrec] at hins2
                  simp at hins2
                · rw [hrec] at hins2
                  simp at hins2
                  exact main kids kids' hrec (Or.inl hget) hins2.symm

theorem lookupAddr_nil_addr (t : List (String × YTree)) :
    lookupAddr t ([] : List String) = none := rfl

theorem insertTree_lookup_domain (parts : List String) :
    ∀ (t : List (String × YTree)) (v : String) (t' : List (String × YTree))
    (q : List String),
    insertTree parts t v = some t' →
    (lookupAddr t' q).isSome = true →
    (lookupAddr t q).isSome = true ∨ initSegB q parts = true := by
  induction parts with
  | nil =>
      intro t v t' q hins _
      simp [insertTree] at hins
  | cons part rest ih =>
      intro t v t' q hins hq
      cases rest with
      | nil =>
          simp only [insertTree] at hins
          rw [← Option.some.inj hins] at hq
          cases q with
          | nil =>
              rw [lookupAddr_nil_addr] at hq
              simp at hq
          | cons k qs =>
              by_cases hk : part = k
              · cases qs with
                | nil =>
                    right
                    simp [initSegB, hk]
                | cons q1 qrest =>
                    rw [lookupAddr_cons_cons, hk, assocGet_set_self] at hq
                    simp at hq
              · cases qs with
                | nil =>
                    left
                    rw [lookupAddr_single,
                      assocGet_set_ne t part k (.leaf v) (fun h => hk h.symm)] at hq
                    rw [lookupAddr_single]
                    exact hq
                | cons q1 qrest =>
                    left
                    rw [lookupAddr_cons_cons,
                      assocGet_set_ne t part k (.leaf v) (fun h => hk h.symm)] at hq
                    rw [lookupAddr_cons_cons]
                    exact hq
      | cons r rs =>
          simp only [insertTree] at hins
          have main : ∀ (kids kids' : List (String × YTree)),
              insertTree (r :: rs) kids v = some kids' →
              (assocGet t part = some (.node kids)
                ∨ (kids = [] ∧ assocGet t part = none)) →
              t' = assocSet t part (.node kids') →
              (lookupAddr t q).isSome = true ∨ initSegB q (part :: r :: rs) = true := by
            intro kids kids' hrec hget2 ht'
            subst ht'
            cases q with
            | nil =>
                rw [lookupAddr_nil_addr] at hq
                simp at hq
            | cons k qs =>
                by_cases hk : part = k
                · subst hk
                  cases qs with
                  | nil =>
                      right
                      simp [initSegB]
                  | cons q1 qrest =>
                      rw [lookupAddr_cons_cons, assocGet_set_self] at hq
                      have hq2 : (lookupAddr kids' (q1 :: qrest)).isSome = true := hq
                      rcases ih kids v kids' (q1 :: qrest) hrec hq2 with hl | hr
                      · rcases hget2 with hget2 | ⟨hkids, hget2⟩
                        · left
                          rw [lookupAddr_cons_cons, hget2]
                          exact hl
                        · subst hkids
                          rw [lookupAddr_nil_tree] at hl
                          simp at hl
                      · right
                        simp [initSegB] at hr ⊢
                        exact hr
                · cases qs with
                  | nil =>
                      left
                      rw [lookupAddr_single,
                        assocGet_set_ne t part k (.node kids') (fun h => hk h.symm)] at hq
                      rw [lookupAddr_single]
                      exact hq
                  | cons q1 qrest =>
                      left
                      rw [lookupAddr_cons_cons,
                        assocGet_set_ne t part k (.node kids') (fun h => hk h.symm)] at hq
                      rw [lookupAddr_cons_cons]
                      exact hq
          rcases hget : assocGet t part with _ | yt
          · rw [hget] at hins
            have hins2 : Option.map (fun kids' => assocSet t part (YTree.node kids'))
                (insertTree (r :: rs) [] v) = some t' := hins
            rcases hrec : insertTree (r :: rs) [] v with _ | kids'
            · rw [hrec] at hins2
              simp at hins2
            · rw [hrec] at hins2
              simp at hins2
              exact main [] kids' hrec (Or.inr ⟨rfl, hget⟩) hins2.symm
          · cases yt with
            | leaf s =>
                rw [hget] at hins
                exact absurd hins (by simp)
            | node kids =>
                rw [hget] at hins
                have hins2 : Option.map (fun kids' => assocSet t part (YTree.node kids'))
                    (insertTree (r :: rs) kids v) = some t' := hins
                rcases hrec : insertTree (r :: rs) kids v with _ | kids'
                · rw [hrec] at hins2
                  simp at hins2
                · rw [hrec] at hins2
                  simp at hins2
                  exact main kids kids' hrec (Or.inl hget) hins2.symm

/-! Lemmas about the generation loop. -/

theorem genLoop_missing (getVal : String → Except String (Option String)) :
    ∀ (paths : List (String × Bool)) (acc : List (String × YTree)) (missing : List String)
    (t : List (String × YTree)) (m : List String),
    genLoop getVal paths acc missing = .ok (t, m) →
    m = missing ++ (paths.filter (fun pr => pr.2 && isOkNone (getVal pr.1))).map
      (fun pr => pr.1) := by
  intro paths
  induction paths with
  | nil =>
      intro acc missing t m h
      simp only [genLoop, Except.ok.injEq, Prod.mk.injEq] at h
      rw [← h.2]
      simp
  | cons pr rest ih =>
      obtain ⟨p, req⟩ := pr
      intro acc missing t m h
      simp only [genLoop] at h
      rcases hgv : getVal p with e | ov
      · rw [hgv] at h
        exact absurd h (by simp)
      · cases ov with
        | none =>
            rw [hgv] at h
            have h2 : (if req = true then genLoop getVal rest acc (missing ++ [p])
                else genLoop getVal rest acc missing) = .ok (t, m) := h
            rw [List.filter_cons]
            by_cases hreq : req = true
            · rw [if_pos hreq] at h2
              rw [ih acc (missing ++ [p]) t m h2]
              have hcond : ((p, req).2 && isOkNone (getVal (p, req).1)) = true := by
                show (req && isOkNone (getVal p)) = true
                rw [hgv, hreq]
                rfl
              rw [if_pos hcond]
              simp
            · rw [if_neg hreq] at h2
              rw [ih acc missing t m h2]
              have hcond : ((p, req).2 && isOkNone (getVal (p, req).1)) = false := by
                show (req && isOkNone (getVal p)) = false
                have : req = false := by
                  cases req
                  · rfl
                  · exact absurd rfl hreq
                rw [this]
                rfl
              rw [hcond]
              simp
        | some v =>
            rw [hgv] at h
            have h2 : (match insertTree (pySplitDot p) acc v with
                | none => (.error "TypeError" : Except String (List (String × YTree) × List String))
                | some acc' => genLoop getVal rest acc' missing) = .ok (t, m) := h
            rcases hins : insertTree (pySplitDot p) acc v with _ | acc'
            · rw [hins] at h2
              exact absurd h2 (by simp)
            · rw [hins] at h2
              rw [List.filter_cons]
              have hcond : ((p, req).2 && isOkNone (getVal (p, req).1)) = false := by
                show (req && isOkNone (getVal p)) = false
                rw [hgv]
                simp [isOkNone]
              rw [hcond]
              simp only [Bool.false_eq_true, if_false]
              exact ih acc' missing t m h2

theorem genLoop_preserves (getVal : String → Except String (Option String)) :
    ∀ (paths : List (String × Bool)) (acc : List (String × YTree)) (missing : List String)
    (t : List (String × YTree)) (m : List String) (q : List String),
    genLoop getVal paths acc missing = .ok (t, m) →
    (∀ pr ∈ paths, initSegB (pySplitDot pr.1) q = false
      ∧ initSegB q (pySplitDot pr.1) = false) →
    lookupAddr t q = lookupAddr acc q := by
  intro paths
  induction paths with
  | nil =>
      intro acc missing t m q h _
      simp only [genLoop, Except.ok.injEq, Prod.mk.injEq] at h
      rw [h.1]
  | cons pr rest ih =>
      obtain ⟨p, req⟩ := pr
      intro acc missing t m q h hq
      simp only [genLoop] at h
      rcases hgv : getVal p with e | ov
      · rw [hgv] at h
        exact absurd h (by simp)
      · cases ov with
        | none =>
            rw [hgv] at h
            have h2 : (if req = true then genLoop getVal rest acc (missing ++ [p])
                else genLoop getVal rest acc missing) = .ok (t, m) := h
            by_cases hreq : req = true
            · rw [if_pos hreq] at h2
              exact ih acc (missing ++ [p]) t m q h2
                (fun x hx => hq x (List.mem_cons_of_mem _ hx))
            · rw [if_neg hreq] at h2
              exact ih acc missing t m q h2
                (fun x hx => hq x (List.mem_cons_of_mem _ hx))
        | some v =>
            rw [hgv] at h
            have h2 : (match insertTree (pySplitDot p) acc v with
                | none => (.error "TypeError" : Except String (List (String × YTree) × List String))
                | some acc' => genLoop getVal rest acc' missing) = .ok (t, m) := h
            rcases hins : insertTree (pySplitDot p) acc v with _ | acc'
            · rw [hins] at h2
              exact absurd h2 (by simp)
            · rw [hins] at h2
              have hhead := hq (p, req) (List.mem_cons_self _ _)
              have hstep := insertTree_lookup_incomp (pySplitDot p) acc v acc' q
                hins hhead.1 hhead.2
              rw [ih acc' missing t m q h2 (fun x hx => hq x (List.mem_cons_of_mem _ hx)),
                hstep]

theorem genLoop_places (getVal : String → Except String (Option String)) :
    ∀ (paths : List (String × Bool)) (acc : List (String × YTree)) (missing : List String)
    (t : List (String × YTree)) (m : List String),
    genLoop getVal paths acc missing = .ok (t, m) →
    List.Pairwise (fun a b : String × Bool =>
      initSegB (pySplitDot a.1) (pySplitDot b.1) = false
      ∧ initSegB (pySplitDot b.1) (pySplitDot a.1) = false) paths →
    ∀ p req v, (p, req) ∈ paths → getVal p = .ok (some v) →
    lookupAddr t (pySplitDot p) = some (.leaf v) := by
  intro paths
  induction paths with
  | nil =>
      intro acc missing t m _ _ p req v hmem _
      simp at hmem
  | cons pr rest ih =>
      obtain ⟨p0, r0⟩ := pr
      intro acc missing t m h hpair p req v hmem hgv2
      have hpc := List.pairwise_cons.mp hpair
      simp only [genLoop] at h
      rcases List.mem_cons.mp hmem with heq | hrest
      · have hp : p0 = p := (Prod.mk.injEq .. ▸ heq.symm).1
        subst hp
        rw [hgv2] at h
        have h2 : (match insertTree (pySplitDot p0) acc v with
            | none => (.error "TypeError" : Except String (List (String × YTree) × List String))
            | some acc' => genLoop getVal rest acc' missing) = .ok (t, m) := h
        rcases hins : insertTree (pySplitDot p0) acc v with _ | acc'
        · rw [hins] at h2
          exact absurd h2 (by simp)
        · rw [hins] at h2
          have hlook := insertTree_lookup_self (pySplitDot p0) acc v acc' hins
          have hpres := genLoop_preserves getVal rest acc' missing t m (pySplitDot p0) h2
            (fun x hx => ⟨(hpc.1 x hx).2, (hpc.1 x hx).1⟩)
          rw [hpres, hlook]
      · rcases hgv : getVal p0 with e | ov
        · rw [hgv] at h
          exact absurd h (by simp)
        · cases ov with
          | none =>
              rw [hgv] at h
              have h2 : (if r0 = true then genLoop getVal rest acc (missing ++ [p0])
                  else genLoop getVal rest acc missing) = .ok (t, m) := h
              by_cases hreq : r0 = true
              · rw [if_pos hreq] at h2
                exact ih acc (missing ++ [p0]) t m h2 hpc.2 p req v hrest hgv2
              · rw [if_neg hreq] at h2
                exact ih acc missing t m h2 hpc.2 p req v hrest hgv2
          | some v0 =>
              rw [hgv] at h
              have h2 : (match insertTree (pySplitDot p0) acc v0 with
                  | none => (.error "TypeError" :
                      Except String (List (String × YTree) × List String))
                  | some acc' => genLoop getVal rest acc' missing) = .ok (t, m) := h
              rcases hins : insertTree (pySplitDot p0) acc v0 with _ | acc'
              · rw [hins] at h2
                exact absurd h2 (by simp)
              · rw [hins] at h2
                exact ih acc' missing t m h2 hpc.2 p req v hrest hgv2

theorem genLoop_domain (getVal : String → Except String (Option String)) :
    ∀ (paths : List (String × Bool)) (acc : List (String × YTree)) (missing : List String)
    (t : List (String × YTree)) (m : List String),
    genLoop getVal paths acc missing = .ok (t, m) →
    ∀ q, (lookupAddr t q).isSome = true →
    (lookupAddr acc q).isSome = true
      ∨ ∃ pr, pr ∈ paths ∧ (∃ v, getVal pr.1 = .ok (some v))
          ∧ initSegB q (pySplitDot pr.1) = true := by
  intro paths
  induction paths with
  | nil =>
      intro acc missing t m h q hq
      simp only [genLoop, Except.ok.injEq, Prod.mk.injEq] at h
      rw [← h.1] at hq
      exact Or.inl hq
  | cons pr rest ih =>
      obtain ⟨p, req⟩ := pr
      intro acc missing t m h q hq
      simp only [genLoop] at h
      rcases hgv : getVal p with e | ov
      · rw [hgv] at h
        exact absurd h (by simp)
      · cases ov with
        | none =>
            rw [hgv] at h
            have h2 : (if req = true then genLoop getVal rest acc (missing ++ [p])
                else genLoop getVal rest acc missing) = .ok (t, m) := h
            by_cases hreq : req = true
            · rw [if_pos hreq] at h2
              rcases ih acc (missing ++ [p]) t m h2 q hq with hl | hr
              · exact Or.inl hl
              · rcases hr with ⟨x, hx1, hx2, hx3⟩
                exact Or.inr ⟨x, List.mem_cons_of_mem _ hx1, hx2, hx3⟩
            · rw [if_neg hreq] at h2
              rcases ih acc missing t m h2 q hq with hl | hr
              · exact Or.inl hl
              · rcases hr with ⟨x, hx1, hx2, hx3⟩
                exact Or.inr ⟨x, List.mem_cons_of_mem _ hx1, hx2, hx3⟩
        | some v =>
            rw [hgv] at h
            have h2 : (match insertTree (pySplitDot p) acc v with
                | none => (.error "TypeError" : Except String (List (String × YTree) × List String))
                | some acc' => genLoop getVal rest acc' missing) = .ok (t, m) := h
            rcases hins : insertTree (pySplitDot p) acc v with _ | acc'
            · rw [hins] at h2
              exact absurd h2 (by simp)
            · rw [hins] at h2
              rcases ih acc' missing t m h2 q hq with hl | hr
              · rcases insertTree_lookup_domain (pySplitDot p) acc v acc' q hins hl with
                  hl2 | hr2
                · exact Or.inl hl2
                · exact Or.inr ⟨(p, req), List.mem_cons_self _ _, ⟨v, hgv⟩, hr2⟩
              · rcases hr with ⟨x, hx1, hx2, hx3⟩
                exact Or.inr ⟨x, List.mem_cons_of_mem _ hx1, hx2, hx3⟩

end HelmValues

open HelmValues

/-- C1: the Validator's type check holds exactly when: `string` and the value is a
string; `number` and the value is numeric and not a boolean (in the embedding the
numeric-and-not-boolean values are exactly the `num` values); `boolean` and the
value is strictly a boolean; `array` and the value is a sequence; `object` and
the value is a mapping; and it is false for every other type name. -/
theorem validate_value_type_characterisation (v : JValue) (t : String) :
    validate_value_type v t = true ↔
      ((t = "string" ∧ ∃ s, v = JValue.str s)
       ∨ (t = "number" ∧ (isInstNumeric v = true ∧ isInstBool v = false) ∧ ∃ n, v = JValue.num n)
       ∨ (t = "boolean" ∧ ∃ b, v = JValue.bool b)
       ∨ (t = "array" ∧ ∃ xs, v = JValue.arr xs)
       ∨ (t = "object" ∧ ∃ fs, v = JValue.obj fs)) := by
  cases v <;>
    simp only [validate_value_type, isInstStr, isInstBool, isInstNumeric, isInstList,
      isInstDict] <;>
    split_ifs <;> simp_all

/-- C2: for every environment mapping lacking a key whose schema entry is
required and has no schema-level default, per-environment validation reports
exactly one missing-required-value error for that key, tagged with that
environment; and it reports none for a key that is present, not required, or
has a default. -/
theorem missing_required_reported_exactly_once (svs : List SchemaValue)
    (evs : List (String × JValue)) (env : String) (entry : SchemaValue)
    (hmem : entry ∈ svs) (hdist : svs.Pairwise (fun a b => a.key ≠ b.key)) :
    countOcc (validateValuesForEnv svs evs env) (missingRequiredError entry.key env)
      = if entry.required && !(envHasKey evs entry.key) && entry.default.isNone
        then 1 else 0 := by
  unfold validateValuesForEnv
  rw [countOcc_append]
  rw [countOcc_eq_zero (valueScanErrors svs evs env) _
    (fun x hx => valueScanErrors_ne_missing svs evs env env entry.key x hx)]
  rw [missingRequiredErrors_count svs evs env entry hmem hdist]
  rw [Nat.zero_add]
  rfl

/-- Witness for C2 at a concrete schema and empty environment mapping. -/
theorem missing_required_reported_exactly_once_witness :
    countOcc (validateValuesForEnv
        [⟨"replicas", "app.replicas", "", "number", true, none, false⟩,
         ⟨"tag", "app.tag", "", "string", false, none, false⟩] [] "dev")
      (missingRequiredError "replicas" "dev") = 1 := by
  have h := missing_required_reported_exactly_once
    [⟨"replicas", "app.replicas", "", "number", true, none, false⟩,
     ⟨"tag", "app.tag", "", "string", false, none, false⟩] [] "dev"
    ⟨"replicas", "app.replicas", "", "number", true, none, false⟩
    (List.mem_cons_self _ _)
    (by simp [List.pairwise_cons])
  rw [h]
  decide

/-- C4: for a sensitive schema entry whose environment value does not conform
to the secret-reference shape, per-environment validation reports an
invalid-secret-structure error for the key, and no type-mismatch error at all
arises from that key: every type-mismatch error in the output comes from a
non-sensitive entry with a different key, i.e. the value-type check is applied
only to entries that are not sensitive. -/
theorem sensitive_literal_invalid_structure_not_type_mismatch
    (svs : List SchemaValue) (evs : List (String × JValue)) (env k : String)
    (v : JValue) (entry : SchemaValue)
    (hlook : schemaDictLookup svs k = some entry)
    (hsens : entry.sensitive = true)
    (hmem : (k, v) ∈ evs)
    (hbad : (validateSecretStructure v).1 = false) :
    (⟨"Values", "Invalid secret structure for " ++ k, some env⟩ : ValidationError)
        ∈ validateValuesForEnv svs evs env
    ∧ ∀ e ∈ validateValuesForEnv svs evs env, headCh e.message = some 'T' →
        ∃ k' entry', entry' ∈ svs.filter (fun x => decide (x.sensitive = false))
          ∧ schemaDictLookup svs k' = some entry' ∧ k' ≠ k
          ∧ e = ⟨"Values", "Type mismatch for " ++ k' ++ ": expected "
              ++ entry'.type, some env⟩ := by
  constructor
  · apply List.mem_append.mpr
    left
    apply List.mem_flatMap.mpr
    refine ⟨(k, v), hmem, ?_⟩
    unfold scanKey
    have hl' : schemaDictLookup svs (k, v).1 = some entry := hlook
    rw [hl']
    exact checkValue_sensitive_invalid_mem entry k v env hsens hbad
  · intro e he hT
    rcases List.mem_append.mp he with hscan | hmiss
    · obtain ⟨kv, hkv, hin⟩ := List.mem_flatMap.mp hscan
      unfold scanKey at hin
      rcases hl : schemaDictLookup svs kv.1 with _ | entry'
      · rw [hl] at hin
        simp at hin
        rw [hin] at hT
        exact absurd hT (headCh_ne "Unknown key: " kv.1 'U' 'T' rfl (by decide))
      · rw [hl] at hin
        by_cases hs' : entry'.sensitive = true
        · rcases checkValue_sensitive_errors entry' kv.1 kv.2 env e hs' hin with
            ⟨s, rfl⟩ | rfl
          · exact absurd hT (headCh_ne "Unsupported secret type: " s 'U' 'T' rfl (by decide))
          · exact absurd hT
              (headCh_ne "Invalid secret structure for " kv.1 'I' 'T' rfl (by decide))
        · have hs'' : entry'.sensitive = false := by
            cases h : entry'.sensitive
            · rfl
            · exact absurd h hs'
          obtain ⟨rfl, -⟩ := checkValue_nonsensitive_errors entry' kv.1 kv.2 env e hs'' hin
          have hne : kv.1 ≠ k := by
            intro hk
            rw [hk, hlook] at hl
            have hEq : entry = entry' := Option.some.inj hl
            rw [← hEq] at hs''
            rw [hsens] at hs''
            exact absurd hs'' (by decide)
          exact ⟨kv.1, entry',
            List.mem_filter.mpr ⟨schemaDictLookup_mem svs kv.1 entry' hl, by simp [hs'']⟩,
            hl, hne, rfl⟩
    · obtain ⟨entry'', hmem'', hsome⟩ := List.mem_filterMap.mp hmiss
      by_cases hc : missingCondition evs entry'' = true
      · rw [if_pos hc] at hsome
        rw [← Option.some.inj hsome] at hT
        rw [missingRequiredError_headCh] at hT
        exact absurd (Option.some.inj hT) (by decide)
      · rw [if_neg hc] at hsome
        exact absurd hsome (by simp)

/-- Witness for C4: a sensitive entry with a literal string value. -/
theorem sensitive_literal_invalid_structure_witness :
    (⟨"Values", "Invalid secret structure for db", some "dev"⟩ : ValidationError)
      ∈ validateValuesForEnv [⟨"db", "db.password", "", "string", true, none, true⟩]
          [("db", JValue.str "hunter2")] "dev" :=
  (sensitive_literal_invalid_structure_not_type_mismatch
    [⟨"db", "db.password", "", "string", true, none, true⟩]
    [("db", JValue.str "hunter2")] "dev" "db" (JValue.str "hunter2")
    ⟨"db", "db.password", "", "string", true, none, true⟩
    rfl rfl (List.mem_cons_self _ _) rfl).1

/-- C6 (resolver modelled from the spec, the resolving code is absent from
`src/`): resolving a valid secret reference whose variable is set returns the
environment's current value exactly; an unset variable is a hard failure. -/
theorem env_secret_resolution_roundtrip (procEnv : String → Option String)
    (x val : String) :
    (procEnv x = some val →
      resolveSecretRef procEnv (.obj [("type", .str "env"), ("name", .str x)]) = .ok val)
    ∧ (procEnv x = none →
      resolveSecretRef procEnv (.obj [("type", .str "env"), ("name", .str x)])
        = .error ("EnvironmentLookupError: " ++ x)) := by
  constructor
  · intro h
    simp [resolveSecretRef, lookupField, h]
  · intro h
    simp [resolveSecretRef, lookupField, h]

/-- Witness for C6: a set variable resolves to its value, an unset one fails. -/
theorem env_secret_resolution_roundtrip_witness :
    resolveSecretRef (fun n => if n = "DB_PW" then some "s3cret" else none)
        (.obj [("type", .str "env"), ("name", .str "DB_PW")]) = .ok "s3cret"
    ∧ resolveSecretRef (fun _ => none)
        (.obj [("type", .str "env"), ("name", .str "DB_PW")])
        = .error ("EnvironmentLookupError: " ++ "DB_PW") :=
  ⟨(env_secret_resolution_roundtrip
      (fun n => if n = "DB_PW" then some "s3cret" else none) "DB_PW" "s3cret").1
    (by decide),
   (env_secret_resolution_roundtrip (fun _ => none) "DB_PW" "s3cret").2 rfl⟩

/-- C7 counterexample: for a sensitive entry with value `{type: "vault"}` the
validator emits the unsupported-secret-type error with NO environment tag, and
it is accompanied by an invalid-secret-structure error — refuting both the
claim's "distinct from (not accompanied by)" and its "carries the
environment". -/
theorem unsupported_secret_type_counterexample :
    validateValuesForEnv [⟨"db", "db.password", "", "string", true, none, true⟩]
        [("db", JValue.obj [("type", JValue.str "vault")])] "dev"
      = [⟨"Values", "Unsupported secret type: vault", none⟩,
         ⟨"Values", "Invalid secret structure for db", some "dev"⟩] := by
  rfl

/-- C7 amended: a sensitive entry whose environment value is a mapping with a
`type` field other than `"env"` yields an unsupported-secret-type error
carrying no environment tag, accompanied by an invalid-secret-structure error
tagged with the environment (the structure check returns false for an
unsupported type, so its caller also reports invalid structure). -/
theorem unsupported_secret_type_amended (svs : List SchemaValue)
    (evs : List (String × JValue)) (env k t : String)
    (fields : List (String × JValue)) (entry : SchemaValue)
    (hlook : schemaDictLookup svs k = some entry)
    (hsens : entry.sensitive = true)
    (hmem : (k, JValue.obj fields) ∈ evs)
    (htype : lookupField fields "type" = some (.str t))
    (hne : t ≠ "env") :
    (⟨"Values", "Unsupported secret type: " ++ t, none⟩ : ValidationError)
        ∈ validateValuesForEnv svs evs env
    ∧ (⟨"Values", "Invalid secret structure for " ++ k, some env⟩ : ValidationError)
        ∈ validateValuesForEnv svs evs env := by
  have hstruct : validateSecretStructure (JValue.obj fields)
      = (false, [⟨"Values", "Unsupported secret type: " ++ t, none⟩]) := by
    simp only [validateSecretStructure]
    rw [htype]
    simp [hne]
  have hcheck : checkValue entry k (JValue.obj fields) env
      = [⟨"Values", "Unsupported secret type: " ++ t, none⟩,
         ⟨"Values", "Invalid secret structure for " ++ k, some env⟩] := by
    unfold checkValue
    rw [if_pos hsens, hstruct]
    rfl
  have hsub : ∀ e ∈ checkValue entry k (JValue.obj fields) env,
      e ∈ validateValuesForEnv svs evs env := by
    intro e he
    apply List.mem_append.mpr
    left
    apply List.mem_flatMap.mpr
    refine ⟨(k, JValue.obj fields), hmem, ?_⟩
    unfold scanKey
    have hl' : schemaDictLookup svs (k, JValue.obj fields).1 = some entry := hlook
    rw [hl']
    exact he
  constructor
  · exact hsub _ (by rw [hcheck]; exact List.mem_cons_self _ _)
  · exact hsub _ (by rw [hcheck]; simp)

/-- Witness for the amended C7 at the concrete vault example. -/
theorem unsupported_secret_type_amended_witness :
    (⟨"Values", "Unsupported secret type: " ++ "vault", none⟩ : ValidationError)
        ∈ validateValuesForEnv [⟨"db", "db.password", "", "string", true, none, true⟩]
            [("db", JValue.obj [("type", JValue.str "vault")])] "dev"
    ∧ (⟨"Values", "Invalid secret structure for " ++ "db", some "dev"⟩ : ValidationError)
        ∈ validateValuesForEnv [⟨"db", "db.password", "", "string", true, none, true⟩]
            [("db", JValue.obj [("type", JValue.str "vault")])] "dev" :=
  unsupported_secret_type_amended
    [⟨"db", "db.password", "", "string", true, none, true⟩]
    [("db", JValue.obj [("type", JValue.str "vault")])] "dev" "db" "vault"
    [("type", JValue.str "vault")]
    ⟨"db", "db.password", "", "string", true, none, true⟩
    rfl rfl (List.mem_cons_self _ _) rfl (by decide)

/-- C8 counterexample: with an environment attached the string form is NOT
`"[{env}] {context}: {message}"` — the source renders a literal backslash
before the bracket. -/
theorem validation_error_render_counterexample :
    ValidationError.render ⟨"Values", "Unknown key: x", some "dev"⟩
      ≠ "[dev] Values: Unknown key: x" := by
  decide

/-- C8 amended: with a nonempty environment attached the string form is
`"\[{env}] {context}: {message}"` (a literal backslash escaping the bracket
for Rich markup); with no environment — or an empty environment name, which
Python's truthiness treats the same — it is `"{context}: {message}"` with no
other characters added. -/
theorem validation_error_render_amended (c m e : String) (h : e ≠ "") :
    ValidationError.render ⟨c, m, some e⟩ = "\\[" ++ e ++ "] " ++ c ++ ": " ++ m
    ∧ ValidationError.render ⟨c, m, none⟩ = c ++ ": " ++ m
    ∧ ValidationError.render ⟨c, m, some ""⟩ = c ++ ": " ++ m := by
  refine ⟨?_, rfl, rfl⟩
  have hr : ValidationError.render ⟨c, m, some e⟩
      = if e = "" then c ++ ": " ++ m
        else "\\[" ++ e ++ "] " ++ c ++ ": " ++ m := rfl
  rw [hr, if_neg h]

/-- Witness for the amended C8 at concrete strings. -/
theorem validation_error_render_amended_witness :
    ValidationError.render ⟨"Values", "msg", some "dev"⟩
        = "\\[" ++ "dev" ++ "] " ++ "Values" ++ ": " ++ "msg"
    ∧ ValidationError.render ⟨"Values", "msg", none⟩ = "Values" ++ ": " ++ "msg"
    ∧ ValidationError.render ⟨"Values", "msg", some ""⟩ = "Values" ++ ": " ++ "msg" :=
  validation_error_render_amended "Values" "msg" "dev" (by decide)

/-- C9: `validate_all` resets `self.errors = []` on entry, so a second call on
the same validator with the same observed files and environment returns the
same boolean and the same error list as the first — the result is independent
of the accumulated state. -/
theorem validate_all_idempotent (s : ValidatorState) (schemaFile : FileContent)
    (schemaPath : String) (valuesFiles : List (String × FileContent))
    (envOpt : Option String) :
    validateAll (validateAll s schemaFile schemaPath valuesFiles envOpt).2
        schemaFile schemaPath valuesFiles envOpt
      = validateAll s schemaFile schemaPath valuesFiles envOpt
    ∧ ∀ s' : ValidatorState,
        validateAll s' schemaFile schemaPath valuesFiles envOpt
          = validateAll s schemaFile schemaPath valuesFiles envOpt :=
  ⟨rfl, fun _ => rfl⟩

/-- C10: a schema entry whose path is the empty string produces no
invalid-path-format error from the Validator's schema-level checks (the
character-wise check is vacuous on the empty string), while the CLI-level
`validate_path_format` rejects an empty path; and the Validator's check
constrains only the characters, so `"."` and `"a..b"` also pass it. -/
theorem empty_path_passes_validator_schema_check :
    schemaEntriesErrors [⟨"a", "", "", "string", false, none, false⟩] [] [] = []
    ∧ validate_path_format "" = false
    ∧ pathCharsOk "" = true
    ∧ pathCharsOk "." = true
    ∧ pathCharsOk "a..b" = true
    ∧ validate_path_format "a.b" = true := by
  decide

/-- C3: whenever the generation scan completes, the collected missing list is
exactly the required paths with no effective value, in scan order; if it is
nonempty, generation returns the single fatal error enumerating all of those
paths (so the set is complete, gathered only after scanning every path) and no
partial output tree; if it is empty, the assembled tree is returned. -/
theorem generate_missing_required_aggregated (paths : List (String × Bool))
    (getVal : String → Except String (Option String)) (dep : String)
    (t : List (String × YTree)) (m : List String)
    (hscan : genLoop getVal paths [] [] = .ok (t, m)) :
    m = (paths.filter (fun pr => pr.2 && isOkNone (getVal pr.1))).map (fun pr => pr.1)
    ∧ (m ≠ [] → generateValuesDict paths getVal dep
        = .error ("Missing required values for deployment \x27" ++ dep
          ++ "\x27: " ++ joinComma m))
    ∧ (m = [] → generateValuesDict paths getVal dep = .ok t) := by
  have hm := genLoop_missing getVal paths [] [] t m hscan
  have hform : generateValuesDict paths getVal dep
      = if m.isEmpty then .ok t
        else .error ("Missing required values for deployment \x27" ++ dep
          ++ "\x27: " ++ joinComma m) := by
    unfold generateValuesDict
    rw [hscan]
  refine ⟨by simpa using hm, ?_, ?_⟩
  · intro hne
    rw [hform, if_neg (by simp [hne])]
  · intro he
    rw [hform, he]
    rfl

/-- Witness for C3: two required paths with no value, one optional; the scan
completes and generation aborts naming both paths. -/
theorem generate_missing_required_aggregated_witness :
    generateValuesDict [("app.replicas", true), ("db.host", true), ("x.y", false)]
        (fun _ => .ok none) "dev"
      = .error ("Missing required values for deployment \x27" ++ "dev"
          ++ "\x27: " ++ joinComma ["app.replicas", "db.host"]) :=
  (generate_missing_required_aggregated
    [("app.replicas", true), ("db.host", true), ("x.y", false)]
    (fun _ => .ok none) "dev" [] ["app.replicas", "db.host"] rfl).2.1 (by decide)

/-- C5: when generation succeeds on paths whose dot-segment lists are pairwise
incomparable (no path a prefix of another — duplicate full paths are already a
schema error), every path with an effective value appears in the output tree
at the position obtained by splitting it on `.`, with the leaf mapped to that
value; and every address present in the tree is a prefix of some valued path's
segments, so a path with no effective value is omitted entirely, with no empty
intermediate mappings created along its segments. -/
theorem generate_places_values_and_omits_absent (paths : List (String × Bool))
    (getVal : String → Except String (Option String)) (dep : String)
    (t : List (String × YTree))
    (hok : generateValuesDict paths getVal dep = .ok t)
    (hpair : List.Pairwise (fun a b : String × Bool =>
      initSegB (pySplitDot a.1) (pySplitDot b.1) = false
      ∧ initSegB (pySplitDot b.1) (pySplitDot a.1) = false) paths) :
    (∀ p req v, (p, req) ∈ paths → getVal p = .ok (some v) →
        lookupAddr t (pySplitDot p) = some (.leaf v))
    ∧ (∀ q, (lookupAddr t q).isSome = true →
        ∃ pr, pr ∈ paths ∧ (∃ v, getVal pr.1 = .ok (some v))
          ∧ initSegB q (pySplitDot pr.1) = true) := by
  unfold generateValuesDict at hok
  rcases hscan : genLoop getVal paths [] [] with e | pm
  · rw [hscan] at hok
    exact absurd hok (by simp)
  · obtain ⟨acc, missing⟩ := pm
    rw [hscan] at hok
    have hok2 : (if missing.isEmpty then (.ok acc : Except String (List (String × YTree)))
        else .error ("Missing required values for deployment \x27" ++ dep
          ++ "\x27: " ++ joinComma missing)) = .ok t := hok
    by_cases hm : missing.isEmpty = true
    · rw [if_pos hm] at hok2
      have hacc : acc = t := Except.ok.inj hok2
      subst hacc
      constructor
      · intro p req v hmem hgv
        exact genLoop_places getVal paths [] [] acc missing hscan hpair p req v hmem hgv
      · intro q hq
        rcases genLoop_domain getVal paths [] [] acc missing hscan q hq with hl | hr
        · rw [lookupAddr_nil_tree] at hl
          simp at hl
        · exact hr
    · rw [if_neg hm] at hok2
      exact absurd hok2 (by simp)

/-- Witness for C5: an optional path with no value is omitted, a valued path
is placed at its split position. -/
theorem generate_places_values_and_omits_absent_witness :
    lookupAddr [("app", YTree.node [("replicas", YTree.leaf "3")])]
        (pySplitDot "app.replicas") = some (.leaf "3") :=
  (generate_places_values_and_omits_absent
      [("app.image.tag", false), ("app.replicas", true)]
      (fun p => if p = "app.replicas" then .ok (some "3") else .ok none) "dev"
      [("app", YTree.node [("replicas", YTree.leaf "3")])]
      rfl
      (by
        refine List.Pairwise.cons ?_ (List.Pairwise.cons ?_ List.Pairwise.nil)
        · intro b hb
          have hb2 : b = ("app.replicas", true) := by simpa using hb
          subst hb2
          exact ⟨by decide, by decide⟩
        · intro b hb
          exact absurd hb (List.not_mem_nil b))).1
    "app.replicas" true "3" (by simp) rfl
